import Mathlib

/-!
Verification of the KAsync Job / Executor / Future engine.

This file shallowly embeds the core data model and operations of the KAsync
library (KDE/kasync) and proves or refutes the specification claims about it.

The embedding is translated from the C++ sources:
 * `src/future.cpp`, `src/future.h`   — the Future state (finished flag, value,
   error list, watcher list) and its operations setFinished, setError, addError,
   setValue, setResult, addWatcher, and FutureWatcherBase::setFutureImpl;
 * `src/executor_p.h`, `src/job_impl.h` — Executor::runExecution (the gating
   protocol), ExecutionContext::guardIsBroken, SyncErrorExecutor::run (onError),
   forEach, serialForEach, waitForCompletion;
 * `src/async_impl.h` — detail::copyFutureValue.

Watchers are modelled by their identities (Nat).  Side-effecting calls
(watcher ready callbacks, error-handler invocations) are modelled by returning
the list of calls made, alongside the new state.
-/

namespace KAsync

/-- An Error value: integer code and message (future.h, struct Error).
The default-constructed Error has code 0; `operator bool` is code ≠ 0. -/
structure Error where
  errorCode : Int
  errorMessage : String
deriving DecidableEq, Repr

/-- The default-constructed Error(): the zero-code "no error" value (future.h). -/
def Error.null : Error := ⟨0, ""⟩

/-- The operator bool of Error: truthy iff the code is nonzero (future.h). -/
def Error.toBool (e : Error) : Bool := e.errorCode != 0

/-- The state of a `Future<T>` (future.h, FutureBase::PrivateBase plus the
value member of FutureGeneric::Private): a finished flag, an optional value
(`none` while no setValue has been made, standing for the default-constructed
value), the ordered error list, and the list of registered watcher ids. -/
structure Future (α : Type) where
  finished : Bool
  value : Option α
  errors : List Error
  watchers : List Nat
deriving DecidableEq, Repr

/-- A freshly created Future (ExecutorBase::createFuture): pending, no value,
no errors, no watchers. -/
def Future.fresh {α : Type} : Future α := ⟨false, none, [], []⟩

/-- Model of `FutureBase::setFinished` (future.cpp:64-76): a no-op when already
finished; otherwise sets the finished flag and invokes the ready callback of
every watcher in the list.  Returns the new state together with the list of
watchers whose ready callback was invoked by this call. -/
def Future.setFinished {α : Type} (f : Future α) : Future α × List Nat :=
  if f.finished then (f, [])
  else ({ f with finished := true }, f.watchers)

/-- The state component of setFinished. -/
def Future.finishState {α : Type} (f : Future α) : Future α := f.setFinished.1

/-- Model of `FutureBase::addError` (future.cpp:97-100): appends the error. -/
def Future.addError {α : Type} (f : Future α) (e : Error) : Future α :=
  { f with errors := f.errors ++ [e] }

/-- Model of `FutureBase::setError` (future.cpp:90-95): clears the error list, appends
the given error, then calls setFinished.  Returns the new state and the
watchers notified by the embedded setFinished. -/
def Future.setError {α : Type} (f : Future α) (e : Error) : Future α × List Nat :=
  (({ f with errors := [] }).addError e).setFinished

/-- The state component of setError. -/
def Future.errorState {α : Type} (f : Future α) (e : Error) : Future α :=
  (f.setError e).1

/-- Model of `FutureBase::hasError` (future.cpp:107-110). -/
def Future.hasError {α : Type} (f : Future α) : Bool := !f.errors.isEmpty

/-- The `errors().first()` expression as used under a hasError guard; `Error()` when the list
is empty (matching the `prevFuture->hasError() ? errors().first() : Error()`
pattern of the callers). -/
def Future.firstError {α : Type} (f : Future α) : Error := f.errors.headD Error.null

/-- Model of `FutureBase::errorCode` (future.cpp:112-118): code of the first error, or
0 when there is none. -/
def Future.errCode {α : Type} (f : Future α) : Int :=
  match f.errors with
  | [] => 0
  | e :: _ => e.errorCode

/-- Model of `Future<T>::setValue` (future.h:219-222): records the value. -/
def Future.setValue {α : Type} (f : Future α) (v : α) : Future α :=
  { f with value := some v }

/-- Model of `Future<T>::setResult` (future.h:338-342): setValue then setFinished. -/
def Future.setResult {α : Type} (f : Future α) (v : α) : Future α × List Nat :=
  (f.setValue v).setFinished

/-- Model of `FutureBase::addWatcher` (future.cpp:149-152): appends the watcher to the
watcher list. -/
def Future.addWatcher {α : Type} (f : Future α) (w : Nat) : Future α :=
  { f with watchers := f.watchers ++ [w] }

/-- Model of `FutureWatcherBase::setFutureImpl` (future.cpp:179-186): stores the future,
adds itself as a watcher, and, when the future is already finished, invokes its
own ready callback immediately.  Returns the future state after addWatcher and
the list of ready callbacks invoked synchronously inside the call. -/
def setFutureImpl {α : Type} (f : Future α) (w : Nat) : Future α × List Nat :=
  (f.addWatcher w, if f.finished then [w] else [])

/-- Model of `detail::copyFutureValue` (async_impl.h:59-81): copies the stored value of
the input future onto the output future (noop for the void specialisation). -/
def copyFutureValue {α : Type} (inF out : Future α) : Future α :=
  { out with value := inF.value }

/-- Model of `Private::ExecutionFlag` (execution_p.h:55-59). -/
inductive ExecutionFlag where
  | Always
  | ErrorCase
  | GoodCase
deriving DecidableEq, Repr

/-- Model of `Executor::runExecution` (job_impl.h:249-272, executor_p.h:199-220):
the gating protocol applied when a step becomes runnable.  `res` is the
step's own (freshly created) output future, `run` the continuation dispatch
(Executor::run) which receives and completes that future.  Note that the
executor's output future is created fresh by exec() right before this call.
In the value-forwarding branch the C++ casts the output future to
Future<PrevOut>; the embedding therefore uses one value type for both. -/
def runExecution {α : Type} (flag : ExecutionFlag) (prevFuture : Option (Future α))
    (res : Future α) (guardIsBroken : Bool) (run : Future α → Future α) : Future α :=
  if guardIsBroken then
    res.finishState
  else
    match prevFuture with
    | some prev =>
      if prev.hasError && flag == ExecutionFlag.GoodCase then
        -- Propagate the error to the outer Future
        res.errorState prev.firstError
      else if !prev.hasError && flag == ExecutionFlag.ErrorCase then
        -- Propagate the value to the outer Future
        (copyFutureValue prev res).finishState
      else
        run res
    | none => run res

/-- One guard sentinel of `ExecutionContext::guards` (execution_p.h:101):
a QPointer to an external QObject, modelled by the time at which the guarded
object is destroyed (`none` when it is never destroyed).  The pointer reads
null at any time at or after the destruction time. -/
def guardDead (destroyedAt : Option Nat) (t : Nat) : Bool :=
  match destroyedAt with
  | some d => decide (d ≤ t)
  | none => false

/-- Model of `ExecutionContext::guardIsBroken` (execution_p.h:102-110) at time `t`:
true iff some sentinel in the merged guard list is already destroyed. -/
def guardIsBroken (guards : List (Option Nat)) (t : Nat) : Bool :=
  guards.any (fun g => guardDead g t)

/-- One executor of a pipeline as driven by Executor::exec: its execution
flag and its continuation dispatch (Executor::run). -/
structure StepSpec (α : Type) where
  flag : ExecutionFlag
  run : Future α → Future α

/-- The chained drive of Executor::exec (job_impl.h:290-342): step `k` is
driven (runExecution) once its predecessor future is finished, at time
`times k`; the guard set was fully merged into the context before any step
runs, so every step consults the same guard list.  Returns the output future
of every step, head first. -/
def driveChainGo {α : Type} (guards : List (Option Nat)) (times : Nat → Nat) :
    Nat → Option (Future α) → List (StepSpec α) → List (Future α)
  | _, _, [] => []
  | k, prev, s :: rest =>
    let out := runExecution s.flag prev Future.fresh (guardIsBroken guards (times k)) s.run
    out :: driveChainGo guards times (k + 1) (some out) rest

/-- Drive a whole pipeline from its head (no predecessor). -/
def driveChain {α : Type} (guards : List (Option Nat)) (times : Nat → Nat)
    (steps : List (StepSpec α)) : List (Future α) :=
  driveChainGo guards times 0 none steps

/-- Model of `SyncErrorExecutor::run` (job_impl.h:228-240), the executor built by
Job::onError: invokes the stored continuation (the user's handler) with the
predecessor's first error, then calls setError with that same error on its own
output future.  Returns the new output future and the list of handler
invocations (the error each call received). -/
def syncErrorExecutorRun {α : Type} (prev res : Future α) : Future α × List Error :=
  (res.errorState prev.firstError, [prev.firstError])

/-- The execution flag Job::onError passes when constructing its
SyncErrorExecutor (job_impl.h:396-403). -/
def onErrorExecutionFlag : ExecutionFlag := ExecutionFlag.ErrorCase

/-- The per-element error recording step that forEach and serialForEach attach
to each inner sub-job (job_impl.h:536-541 and 567-572): the handler receives
`e` (the sub-future's first error, or Error() when it has none) and records it
into the shared error slot only when `e` is truthy and no error was recorded
yet: `if (e && !*error) *error = e;`. -/
def recordError (acc : Option Error) (e : Error) : Option Error :=
  if e.toBool && acc.isNone then some e else acc

/-- The shared error slot after forEach has seen all per-element sub-futures
(job_impl.h:528-544): fold of recordError over the sub-futures in list order,
each contributing its first error (or Error() when clean). -/
def forEachCollect (futures : List (Future Unit)) : Option Error :=
  futures.foldl (fun acc f => recordError acc f.firstError) none

/-- Model of `waitForCompletion` (job_impl.h:493-526): counts the finished input
futures (one watcher per non-finished input counting down) and finishes the
outer future exactly when the count reaches the total.  The model gives the
outer future once all currently-finished flags are as in `futures`: it is
finished iff every input future is finished. -/
def waitForCompletionOuter (futures : List (Future Unit)) : Future Unit :=
  if futures.all (fun f => f.finished) then Future.fresh.finishState else Future.fresh

/-- The final continuation of forEach (job_impl.h:545-552), run after
waitForCompletion: finishes the outer future with the recorded error when one
was recorded, cleanly otherwise. -/
def forEachFinal (futures : List (Future Unit)) : Future Unit :=
  match forEachCollect futures with
  | some e => Future.fresh.errorState e
  | none => Future.fresh.finishState

/-- Events of a serialForEach run: inner sub-job for element k started /
its future finished. -/
inductive Ev where
  | start : Nat → Ev
  | finish : Nat → Ev
deriving DecidableEq, Repr

/-- The body of `serialForEach` (job_impl.h:559-588): the chain built by the
fold `serialJob = serialJob.then(...)` runs the inner job for one element per
step; the step for element k+1 is driven only once element k's future has
finished (the chain is a then-chain, cf. Executor::exec).  Each step runs the
inner job on its element (emitting start k, then finish k when its future
finishes), records the inner error via recordError, and finishes its own
future cleanly, so the chain never carries an error and every element runs.
`inner v` is the first error of the inner sub-job's future for element `v`
(Error() when it succeeded). -/
def serialForEachGo {α : Type} (inner : α → Error) :
    Nat → List α → Option Error → Option Error × List Ev
  | _, [], err => (err, [])
  | k, v :: rest, err =>
    let next := serialForEachGo inner (k + 1) rest (recordError err (inner v))
    (next.1, Ev.start k :: Ev.finish k :: next.2)

/-- A full serialForEach run over `values`: returns the final outer future
(the trailing `.then` of job_impl.h:577-584: error when one was recorded,
clean otherwise) and the event trace of the run. -/
def serialForEachRun {α : Type} (inner : α → Error) (values : List α) :
    Future Unit × List Ev :=
  let r := serialForEachGo inner 0 values none
  (match r.1 with
   | some e => Future.fresh.errorState e
   | none => Future.fresh.finishState, r.2)

/-- Model of ControlFlow of the loop combinator, with variants Continue and Break
(used by autotests/asynctest.cpp:527-529 as KAsync::Continue / KAsync::Break). -/
inductive ControlFlow where
  | Continue
  | Break
deriving DecidableEq, Repr

/-- Outcome of one run of a do_while body job: its future either carries an
error or a ControlFlow value. -/
inductive BodyResult where
  | err : Error → BodyResult
  | flow : ControlFlow → BodyResult
deriving DecidableEq, Repr

/-- Modelled from the spec: the ControlFlow form of `do_while(body)` is
missing from src (src/async.cpp:97-135 holds only the superseded boolean
`dowhile`; autotests/asynctest.cpp:520-534 calls the ControlFlow form).
Spec §4.4: body produces Job<ControlFlow>; after body finishes: if it
errored, the loop finishes with that error; if it yielded Continue, the
engine constructs and runs a fresh do_while(body) and threads its completion
to the outer Future; if it yielded Break, the outer Future finishes cleanly.
The body is a stateful generator `σ → σ × BodyResult`; `fuel` bounds the
number of iterations so the model is total, `none` meaning the loop did not
finish within the bound. -/
def doWhileRun {σ : Type} (body : σ → σ × BodyResult) :
    Nat → σ → Option (σ × Future Unit)
  | 0, _ => none
  | fuel + 1, s =>
    let (s1, r) := body s
    match r with
    | BodyResult.err e => some (s1, Future.fresh.errorState e)
    | BodyResult.flow ControlFlow.Break => some (s1, Future.fresh.finishState)
    | BodyResult.flow ControlFlow.Continue => doWhileRun body fuel s1

end KAsync

namespace KAsync

/-- Helper: the state left by setError — error list replaced by the single
error, finished, value and watchers untouched. -/
theorem Future.errorState_spec {α : Type} (f : Future α) (e : Error) :
    (f.errorState e).errors = [e]
    ∧ (f.errorState e).finished = true
    ∧ (f.errorState e).value = f.value
    ∧ (f.errorState e).watchers = f.watchers := by
  unfold Future.errorState Future.setError Future.addError Future.setFinished
  by_cases h : f.finished <;> simp [h]

/-- Helper: the state left by setFinished — finished, everything else
untouched. -/
theorem Future.finishState_spec {α : Type} (f : Future α) :
    f.finishState.finished = true
    ∧ f.finishState.value = f.value
    ∧ f.finishState.errors = f.errors
    ∧ f.finishState.watchers = f.watchers := by
  unfold Future.finishState Future.setFinished
  by_cases h : f.finished <;> simp [h]

/-- Claim C2, counterexample: `set_error` does not append to the existing
error list.  On a Future already carrying the error (1, "first"), calling
setError with (2, "second") leaves the list `[(2, "second")]` — the
previously recorded error is discarded (future.cpp:90-95 clears the list
first), not preserved as the claim states. -/
theorem setError_discards_previous_errors :
    ((Future.mk false (none : Option Int) [⟨1, "first"⟩] []).errorState ⟨2, "second"⟩).errors
        = [⟨2, "second"⟩]
    ∧ ((Future.mk false (none : Option Int) [⟨1, "first"⟩] []).errorState ⟨2, "second"⟩).errors
        ≠ [⟨1, "first"⟩, ⟨2, "second"⟩] := by
  constructor <;> decide

/-- Claim C2 (amended): for every Future, `set_error(e)` replaces the error
list with the single error `e` (previously recorded errors are cleared, then
`e` is appended) and transitions the Future to finished if it is not already
finished; the stored value and the watcher list are unchanged. -/
theorem setError_replaces_and_finishes {α : Type} (f : Future α) (e : Error) :
    (f.setError e).1.errors = [e]
    ∧ (f.setError e).1.finished = true
    ∧ (f.setError e).1.value = f.value
    ∧ (f.setError e).1.watchers = f.watchers := by
  unfold Future.setError Future.addError Future.setFinished
  by_cases h : f.finished <;> simp [h]

/-- Claim C4: a Future transitions pending → finished exactly once.
`g` is an already-finished Future: setFinished is a no-op (state, value and
error list unchanged) and notifies nobody.  `f` is a pending Future: the
first setFinished finishes it, fires every registered watcher, and leaves
value and errors untouched; a second setFinished is a no-op firing nobody,
so across both calls each watcher's ready callback fires exactly as often as
it is registered — exactly once for a watcher registered once. -/
theorem setFinished_exactly_once {α : Type} (g f : Future α)
    (hg : g.finished = true) (hf : f.finished = false) :
    g.setFinished = (g, [])
    ∧ f.setFinished.1.finished = true
    ∧ f.setFinished.1.value = f.value
    ∧ f.setFinished.1.errors = f.errors
    ∧ f.setFinished.2 = f.watchers
    ∧ f.setFinished.1.setFinished = (f.setFinished.1, [])
    ∧ ∀ w : Nat, (f.setFinished.2 ++ f.setFinished.1.setFinished.2).count w
        = f.watchers.count w := by
  unfold Future.setFinished
  simp [hg, hf]

/-- Witness for claim C4 at concrete futures: a finished Future with watcher 3
and a pending Future with watcher 5. -/
theorem setFinished_exactly_once_witness :
    (Future.mk true (some (0 : Int)) [] [3]).setFinished = (Future.mk true (some 0) [] [3], [])
    ∧ (Future.mk false (some (1 : Int)) [] [5]).setFinished.2 = [5]
    ∧ ((Future.mk false (some (1 : Int)) [] [5]).setFinished.2
        ++ (Future.mk false (some (1 : Int)) [] [5]).setFinished.1.setFinished.2).count 5 = 1 := by
  have h := setFinished_exactly_once (Future.mk true (some (0 : Int)) [] [3])
      (Future.mk false (some (1 : Int)) [] [5]) rfl rfl
  refine ⟨h.1, h.2.2.2.2.1, ?_⟩
  have h5 := h.2.2.2.2.2.2 5
  simpa using h5

/-- Claim C10: setting a watcher's future (setFutureImpl) on an
already-finished Future `g` invokes the ready callback immediately and
synchronously within the call; on a not-yet-finished Future `f` no callback
fires inside the call, the watcher is appended to the Future's watcher list,
and when that Future later finishes, the ready callback fires (it is among
the watchers notified by setFinished). -/
theorem setFuture_ready_not_lost {α : Type} (g f : Future α) (w : Nat)
    (hg : g.finished = true) (hf : f.finished = false) :
    (setFutureImpl g w).2 = [w]
    ∧ (setFutureImpl g w).1.watchers = g.watchers ++ [w]
    ∧ (setFutureImpl f w).2 = []
    ∧ (setFutureImpl f w).1.watchers = f.watchers ++ [w]
    ∧ (setFutureImpl f w).1.setFinished.2 = f.watchers ++ [w] := by
  unfold setFutureImpl Future.addWatcher Future.setFinished
  simp [hg, hf]

/-- Witness for claim C10 at concrete futures: watcher 9 bound to a finished
Future fires at once; bound to a pending Future it fires on setFinished. -/
theorem setFuture_ready_not_lost_witness :
    (setFutureImpl (Future.mk true (some (4 : Int)) [] []) 9).2 = [9]
    ∧ (setFutureImpl (Future.mk false (none : Option Int) [] [2]) 9).2 = []
    ∧ (setFutureImpl (Future.mk false (none : Option Int) [] [2]) 9).1.setFinished.2 = [2, 9] := by
  have h := setFuture_ready_not_lost (Future.mk true (some (4 : Int)) [] [])
      (Future.mk false (none : Option Int) [] [2]) 9 rfl rfl
  exact ⟨h.1, h.2.2.1, h.2.2.2.2⟩

/-- Claim C1: a GoodOnly (GoodCase) step whose predecessor Future is finished
with at least one error and whose guard is intact never invokes its
continuation — the output is the same for every `run` function and `run` is
never applied — and its output Future is finished carrying exactly the
predecessor's first error `e` (same code and message, since the whole Error
value is forwarded). -/
theorem goodOnly_skips_on_error_and_forwards_first {α : Type}
    (prev res : Future α) (run : Future α → Future α) (e : Error) (es : List Error)
    (hfin : prev.finished = true) (herr : prev.errors = e :: es) :
    runExecution ExecutionFlag.GoodCase (some prev) res false run = res.errorState e
    ∧ (runExecution ExecutionFlag.GoodCase (some prev) res false run).errors = [e]
    ∧ (runExecution ExecutionFlag.GoodCase (some prev) res false run).finished = true := by
  have h1 : runExecution ExecutionFlag.GoodCase (some prev) res false run
      = res.errorState e := by
    unfold runExecution
    simp [Future.hasError, Future.firstError, herr]
  have hs := Future.errorState_spec res e
  exact ⟨h1, by rw [h1]; exact hs.1, by rw [h1]; exact hs.2.1⟩

/-- Witness for claim C1: a predecessor finished with error (7, "boom"); the
step's output carries exactly that error, whatever the continuation. -/
theorem goodOnly_skips_on_error_witness :
    runExecution ExecutionFlag.GoodCase
        (some (Future.mk true (some (1 : Int)) [⟨7, "boom"⟩] [])) Future.fresh false id
      = (Future.fresh (α := Int)).errorState ⟨7, "boom"⟩
    ∧ (runExecution ExecutionFlag.GoodCase
        (some (Future.mk true (some (1 : Int)) [⟨7, "boom"⟩] [])) Future.fresh false id).errors
      = [⟨7, "boom"⟩] := by
  have h := goodOnly_skips_on_error_and_forwards_first
      (Future.mk true (some (1 : Int)) [⟨7, "boom"⟩] []) Future.fresh id ⟨7, "boom"⟩ [] rfl rfl
  exact ⟨h.1, h.2.1⟩

/-- Claim C7: an ErrorOnly (ErrorCase) step whose predecessor Future finished
without any error, guard intact, does not invoke its continuation (the result
is the same for every `run`): the predecessor's value is copied onto the
step's fresh output Future, which is finished carrying no error. -/
theorem errorOnly_forwards_value_on_success {α : Type}
    (prev : Future α) (run : Future α → Future α)
    (hfin : prev.finished = true) (herr : prev.errors = []) :
    runExecution ExecutionFlag.ErrorCase (some prev) Future.fresh false run
      = Future.mk true prev.value [] [] := by
  unfold runExecution
  simp only [Future.hasError, herr, List.isEmpty_nil, Bool.not_true, Bool.false_and,
    Bool.not_false, Bool.true_and, if_false, Bool.false_eq_true]
  unfold copyFutureValue Future.fresh Future.finishState Future.setFinished
  simp

/-- Witness for claim C7: a predecessor finished cleanly with value 11; the
ErrorCase step's output is finished with value 11 and no error. -/
theorem errorOnly_forwards_value_witness :
    runExecution ExecutionFlag.ErrorCase
        (some (Future.mk true (some (11 : Int)) [] [])) Future.fresh false id
      = Future.mk true (some 11) [] [] := by
  have h := errorOnly_forwards_value_on_success
      (Future.mk true (some (11 : Int)) [] []) id rfl rfl
  simpa using h

/-- Claim C6, counterexample: on an errored upstream, the onError step
(SyncErrorExecutor, job_impl.h:228-240) does not forward the predecessor's
value — it finishes its own Future by setError with the first upstream error.
Concretely, with predecessor finished carrying value 5 and error (7, "bad"),
the step's output Future has no value (none ≠ some 5) and carries the error
(7, "bad"). -/
theorem onError_does_not_forward_value :
    (runExecution onErrorExecutionFlag
        (some (Future.mk true (some (5 : Int)) [⟨7, "bad"⟩] [])) Future.fresh false
        (fun r => (syncErrorExecutorRun (Future.mk true (some (5 : Int)) [⟨7, "bad"⟩] []) r).1)).value
      = none
    ∧ (runExecution onErrorExecutionFlag
        (some (Future.mk true (some (5 : Int)) [⟨7, "bad"⟩] [])) Future.fresh false
        (fun r => (syncErrorExecutorRun (Future.mk true (some (5 : Int)) [⟨7, "bad"⟩] []) r).1)).value
      ≠ some 5
    ∧ (runExecution onErrorExecutionFlag
        (some (Future.mk true (some (5 : Int)) [⟨7, "bad"⟩] [])) Future.fresh false
        (fun r => (syncErrorExecutorRun (Future.mk true (some (5 : Int)) [⟨7, "bad"⟩] []) r).1)).errors
      = [⟨7, "bad"⟩] := by
  refine ⟨?_, ?_, ?_⟩ <;> decide

/-- Claim C6 (amended): onError(handler) creates a step whose execution flag
is ErrorOnly (ErrorCase); when the upstream Future carries an error, the step
calls the handler exactly once with the first upstream error, and then
finishes its own output Future with that same error via setError — the error
is forwarded, not consumed, so downstream steps still observe it; the
predecessor's value is not copied onto the output Future (its value field is
left as it was). -/
theorem onError_calls_handler_and_forwards_error {α : Type}
    (prev res : Future α) (e : Error) (es : List Error)
    (hfin : prev.finished = true) (herr : prev.errors = e :: es) :
    onErrorExecutionFlag = ExecutionFlag.ErrorCase
    ∧ (syncErrorExecutorRun prev res).2 = [e]
    ∧ runExecution onErrorExecutionFlag (some prev) res false
        (fun r => (syncErrorExecutorRun prev r).1) = res.errorState e
    ∧ (runExecution onErrorExecutionFlag (some prev) res false
        (fun r => (syncErrorExecutorRun prev r).1)).errors = [e]
    ∧ (runExecution onErrorExecutionFlag (some prev) res false
        (fun r => (syncErrorExecutorRun prev r).1)).value = res.value
    ∧ (runExecution onErrorExecutionFlag (some prev) res false
        (fun r => (syncErrorExecutorRun prev r).1)).finished = true := by
  have hfe : prev.firstError = e := by
    unfold Future.firstError
    simp [herr]
  have h1 : runExecution onErrorExecutionFlag (some prev) res false
      (fun r => (syncErrorExecutorRun prev r).1) = res.errorState e := by
    unfold runExecution onErrorExecutionFlag syncErrorExecutorRun
    simp [Future.hasError, herr, hfe]
  have hs := Future.errorState_spec res e
  refine ⟨rfl, ?_, h1, ?_, ?_, ?_⟩
  · unfold syncErrorExecutorRun
    rw [hfe]
  · rw [h1]; exact hs.1
  · rw [h1]; exact hs.2.2.1
  · rw [h1]; exact hs.2.1

/-- Helper: a broken guard stays broken — once some sentinel's destruction
time has passed, it has passed at every later time (QPointers to destroyed
objects never become non-null again). -/
theorem guardIsBroken_mono (guards : List (Option Nat)) (t u : Nat) (h : t ≤ u)
    (hb : guardIsBroken guards t = true) : guardIsBroken guards u = true := by
  unfold guardIsBroken at hb ⊢
  rw [List.any_eq_true] at hb ⊢
  obtain ⟨g, hg, hdead⟩ := hb
  refine ⟨g, hg, ?_⟩
  unfold guardDead at hdead ⊢
  cases g with
  | none => simp at hdead
  | some d =>
    simp only [decide_eq_true_eq] at hdead ⊢
    omega

/-- Helper: the fresh output future after the guard-broken short-circuit. -/
theorem fresh_finishState {α : Type} :
    (Future.fresh (α := α)).finishState = Future.mk true none [] [] := by
  unfold Future.fresh Future.finishState Future.setFinished
  simp

/-- Helper: every step of a chain suffix driven with a broken guard produces
the empty finished future, by induction on the remaining steps. -/
theorem driveChainGo_broken {α : Type} (guards : List (Option Nat)) (times : Nat → Nat)
    (hmono : ∀ i j : Nat, i ≤ j → times i ≤ times j) :
    ∀ (steps : List (StepSpec α)) (k0 : Nat) (prev : Option (Future α)) (k j : Nat),
      guardIsBroken guards (times (k0 + k)) = true → k ≤ j → j < steps.length →
      (driveChainGo guards times k0 prev steps)[j]? = some (Future.mk true none [] []) := by
  intro steps
  induction steps with
  | nil =>
    intro k0 prev k j _ _ hj
    simp at hj
  | cons s rest ih =>
    intro k0 prev k j hb hk hj
    cases k with
    | zero =>
      have hb0 : guardIsBroken guards (times k0) = true := by simpa using hb
      cases j with
      | zero =>
        show (runExecution s.flag prev Future.fresh (guardIsBroken guards (times k0)) s.run
            :: driveChainGo guards times (k0 + 1) _ rest)[0]? = _
        rw [hb0]
        unfold runExecution
        simp [fresh_finishState]
      | succ j1 =>
        show (runExecution s.flag prev Future.fresh (guardIsBroken guards (times k0)) s.run
            :: driveChainGo guards times (k0 + 1) _ rest)[j1 + 1]? = _
        rw [List.getElem?_cons_succ]
        refine ih (k0 + 1) _ 0 j1 ?_ (by omega) (by simpa using hj)
        have := guardIsBroken_mono guards (times k0) (times (k0 + 1))
          (hmono _ _ (by omega)) hb0
        simpa using this
    | succ k1 =>
      cases j with
      | zero => omega
      | succ j1 =>
        show (runExecution s.flag prev Future.fresh (guardIsBroken guards (times k0)) s.run
            :: driveChainGo guards times (k0 + 1) _ rest)[j1 + 1]? = _
        rw [List.getElem?_cons_succ]
        refine ih (k0 + 1) _ k1 j1 ?_ (by omega) (by simpa using hj)
        have harith : k0 + 1 + k1 = k0 + (k1 + 1) := by omega
        rw [harith]
        exact hb

/-- Witness for claim C6 (amended) at the counterexample's input. -/
theorem onError_calls_handler_witness :
    (syncErrorExecutorRun (Future.mk true (some (5 : Int)) [⟨7, "bad"⟩] []) Future.fresh).2
      = [⟨7, "bad"⟩]
    ∧ (runExecution onErrorExecutionFlag
        (some (Future.mk true (some (5 : Int)) [⟨7, "bad"⟩] [])) Future.fresh false
        (fun r => (syncErrorExecutorRun (Future.mk true (some (5 : Int)) [⟨7, "bad"⟩] []) r).1)).errors
      = [⟨7, "bad"⟩] := by
  have h := onError_calls_handler_and_forwards_error
      (Future.mk true (some (5 : Int)) [⟨7, "bad"⟩] []) (Future.fresh (α := Int))
      ⟨7, "bad"⟩ [] rfl rfl
  exact ⟨h.2.1, h.2.2.2.1⟩

/-- Claim C3: once a guard of the merged set is broken — some sentinel
destroyed by the time step `k` is driven — step `k` and every later step `j`
of the run finishes its output Future in its current empty state: finished,
no value, no errors.  The conclusion holds for arbitrary step lists (any
flags, any continuations — so no continuation is invoked and its effect never
appears in the output) and in particular drops any upstream error an earlier
step may have recorded.  `times` gives the (nondecreasing) time at which each
step is driven; sentinel destruction is permanent, so the guard stays
broken. -/
theorem guard_broken_short_circuits {α : Type} (guards : List (Option Nat))
    (times : Nat → Nat) (steps : List (StepSpec α)) (k j : Nat)
    (hmono : ∀ i j : Nat, i ≤ j → times i ≤ times j)
    (hb : guardIsBroken guards (times k) = true)
    (hkj : k ≤ j) (hj : j < steps.length) :
    (driveChain guards times steps)[j]? = some (Future.mk true none [] []) := by
  unfold driveChain
  refine driveChainGo_broken guards times hmono steps 0 none k j ?_ hkj hj
  simpa using hb

/-- Witness for claim C3: a sentinel destroyed at time 0 and a two-step chain
of GoodCase steps driven at times 0 and 1 — both steps' Futures are finished
empty, even though the first step's continuation would have recorded an
error and the second a value. -/
theorem guard_broken_short_circuits_witness :
    (driveChain [some 0] (fun i => i)
        [StepSpec.mk ExecutionFlag.GoodCase (fun r => r.errorState ⟨1, "x"⟩),
         StepSpec.mk ExecutionFlag.GoodCase (fun r => (r.setValue (3 : Int)).finishState)])[1]?
      = some (Future.mk true none [] [])
    ∧ (driveChain [some 0] (fun i => i)
        [StepSpec.mk ExecutionFlag.GoodCase (fun r => r.errorState ⟨1, "x"⟩),
         StepSpec.mk ExecutionFlag.GoodCase (fun r => (r.setValue (3 : Int)).finishState)])[0]?
      = some (Future.mk true none [] []) := by
  constructor
  · exact guard_broken_short_circuits [some 0] (fun i => i) _ 0 1
      (fun i j h => h) (by decide) (by omega) (by simp)
  · exact guard_broken_short_circuits [some 0] (fun i => i) _ 0 0
      (fun i j h => h) (by decide) (by omega) (by simp)

/-- Helper: once an error is recorded in the shared slot, the handler records
nothing further (`if (e && !*error)` is false when an error is stored). -/
theorem recordError_some (a e : Error) : recordError (some a) e = some a := by
  unfold recordError
  simp

/-- Helper: a falsy error (code 0) is never recorded. -/
theorem recordError_clean (acc : Option Error) (e : Error) (h : e.toBool = false) :
    recordError acc e = acc := by
  unfold recordError
  rw [h]
  simp

/-- Helper: the fold keeps a recorded error unchanged over any suffix. -/
theorem forEachCollect_stays (a : Error) :
    ∀ (l : List (Future Unit)),
      l.foldl (fun acc f => recordError acc f.firstError) (some a) = some a := by
  intro l
  induction l with
  | nil => rfl
  | cons f rest ih =>
    show rest.foldl _ (recordError (some a) f.firstError) = some a
    rw [recordError_some]
    exact ih

/-- Helper: futures whose first error is falsy record nothing. -/
theorem forEachCollect_clean (good : List (Future Unit))
    (hgood : ∀ f ∈ good, f.firstError.toBool = false) :
    ∀ (acc : Option Error),
      good.foldl (fun acc f => recordError acc f.firstError) acc = acc := by
  induction good with
  | nil => intro acc; rfl
  | cons f rest ih =>
    intro acc
    show rest.foldl _ (recordError acc f.firstError) = acc
    rw [recordError_clean acc f.firstError (hgood f (by simp))]
    exact ih (fun g hg => hgood g (by simp [hg])) acc

/-- Claim C5, counterexample: with two failed sub-futures, carrying errors
(1, "e1") and (2, "e2"), the aggregate Future's error list is the single
entry (1, "e1") — not one entry per failure as the claim states (the handler
keeps only the first error, job_impl.h:536-541, and the final step finishes
with a single setError, job_impl.h:545-552). -/
theorem forEach_does_not_aggregate_all :
    (forEachFinal [Future.mk true none [⟨1, "e1"⟩] [], Future.mk true none [⟨2, "e2"⟩] []]).errors
      = [⟨1, "e1"⟩]
    ∧ (forEachFinal [Future.mk true none [⟨1, "e1"⟩] [],
        Future.mk true none [⟨2, "e2"⟩] []]).errors.length ≠ 2 := by
  constructor <;> decide

/-- Claim C5 (amended): the outer Future of for_each finishes only when every
per-element sub-future has finished (waitForCompletion counts them down), and
when elements errored the outer Future is finished by a single setError with
the first recorded failure: for a sub-future list `good ++ bad :: rest` where
every future in `good` carries no (truthy) error and `bad` carries one, the
recorded error is exactly `bad`'s first error and the aggregate error list is
the one-element list holding it, regardless of how many later elements also
failed. -/
theorem forEach_first_error_only (good rest : List (Future Unit)) (bad : Future Unit)
    (hgood : ∀ f ∈ good, f.firstError.toBool = false)
    (hbad : bad.firstError.toBool = true) :
    (waitForCompletionOuter (good ++ bad :: rest)).finished
      = ((good ++ bad :: rest).all fun f => f.finished)
    ∧ forEachCollect (good ++ bad :: rest) = some bad.firstError
    ∧ (forEachFinal (good ++ bad :: rest)).errors = [bad.firstError]
    ∧ (forEachFinal (good ++ bad :: rest)).finished = true := by
  have hcollect : forEachCollect (good ++ bad :: rest) = some bad.firstError := by
    unfold forEachCollect
    rw [List.foldl_append]
    rw [forEachCollect_clean good hgood none]
    show rest.foldl _ (recordError none bad.firstError) = _
    have hrec : recordError none bad.firstError = some bad.firstError := by
      unfold recordError
      rw [hbad]
      simp
    rw [hrec]
    exact forEachCollect_stays bad.firstError rest
  have hwfc : (waitForCompletionOuter (good ++ bad :: rest)).finished
      = ((good ++ bad :: rest).all fun f => f.finished) := by
    unfold waitForCompletionOuter
    by_cases h : ((good ++ bad :: rest).all fun f => f.finished) = true
    · rw [if_pos h, h, fresh_finishState]
    · rw [if_neg h]
      simp only [Bool.not_eq_true] at h
      rw [h]
      rfl
  have hfinal : forEachFinal (good ++ bad :: rest)
      = Future.fresh.errorState bad.firstError := by
    unfold forEachFinal
    rw [hcollect]
  have hspec := Future.errorState_spec (Future.fresh (α := Unit)) bad.firstError
  exact ⟨hwfc, hcollect, by rw [hfinal]; exact hspec.1, by rw [hfinal]; exact hspec.2.1⟩

/-- Witness for claim C5 (amended): one clean sub-future, then a failure
(3, "x"), then another failure (4, "y") — the aggregate carries exactly
[(3, "x")]. -/
theorem forEach_first_error_only_witness :
    forEachCollect [Future.mk true none [] [],
        Future.mk true none [⟨3, "x"⟩] [], Future.mk true none [⟨4, "y"⟩] []]
      = some ⟨3, "x"⟩
    ∧ (forEachFinal [Future.mk true none [] [],
        Future.mk true none [⟨3, "x"⟩] [], Future.mk true none [⟨4, "y"⟩] []]).errors
      = [⟨3, "x"⟩] := by
  have h := forEach_first_error_only [Future.mk true none [] []]
      [Future.mk true none [⟨4, "y"⟩] []] (Future.mk true none [⟨3, "x"⟩] [])
      (by intro f hf; simp at hf; rw [hf]; decide) (by decide)
  exact ⟨h.2.1, h.2.2.1⟩

/-- Helper: the error slot after a serialForEach pass is the recordError fold
over the elements in list order. -/
theorem serialForEachGo_err {α : Type} (inner : α → Error) :
    ∀ (l : List α) (k : Nat) (err : Option Error),
      (serialForEachGo inner k l err).1
        = l.foldl (fun acc v => recordError acc (inner v)) err := by
  intro l
  induction l with
  | nil => intro k err; rfl
  | cons v rest ih =>
    intro k err
    show (serialForEachGo inner (k + 1) rest (recordError err (inner v))).1 = _
    rw [ih]
    rfl

/-- Helper: positions of the start/finish events in a serialForEach trace —
element `k0 + j` starts at position `2j` and finishes at position `2j + 1`. -/
theorem serialForEachGo_trace {α : Type} (inner : α → Error) :
    ∀ (l : List α) (k0 : Nat) (err : Option Error) (j : Nat), j < l.length →
      (serialForEachGo inner k0 l err).2[2 * j]? = some (Ev.start (k0 + j))
      ∧ (serialForEachGo inner k0 l err).2[2 * j + 1]? = some (Ev.finish (k0 + j)) := by
  intro l
  induction l with
  | nil =>
    intro k0 err j hj
    simp at hj
  | cons v rest ih =>
    intro k0 err j hj
    have hshape : (serialForEachGo inner k0 (v :: rest) err).2
        = Ev.start k0 :: Ev.finish k0
          :: (serialForEachGo inner (k0 + 1) rest (recordError err (inner v))).2 := rfl
    rw [hshape]
    cases j with
    | zero => simp
    | succ j1 =>
      have h2 : 2 * (j1 + 1) = 2 * j1 + 1 + 1 := by omega
      rw [h2]
      simp only [List.getElem?_cons_succ]
      have hrec := ih (k0 + 1) (recordError err (inner v)) j1 (by simpa using hj)
      have harith : k0 + 1 + j1 = k0 + (j1 + 1) := by omega
      rw [harith] at hrec
      exact hrec

/-- Claim C8: in serial_for_each, element `k` starts at trace position `2k`
and its sub-job's Future finishes at position `2k + 1`; element `k + 1`
starts at position `2k + 2`, strictly after element `k`'s finish — the next
sub-job is constructed and started only once the previous element's Future
has finished.  This holds for every element and every inner job, so every
element is processed even when earlier elements error.  The final Future is
always finished, and carries the first recorded error (the recordError fold
over the elements in order) if any element errored, nothing otherwise. -/
theorem serialForEach_in_order_first_error {α : Type} (inner : α → Error)
    (values : List α) (k : Nat) :
    (k < values.length →
      (serialForEachRun inner values).2[2 * k]? = some (Ev.start k)
      ∧ (serialForEachRun inner values).2[2 * k + 1]? = some (Ev.finish k))
    ∧ (k + 1 < values.length →
      (serialForEachRun inner values).2[2 * k + 2]? = some (Ev.start (k + 1)))
    ∧ (serialForEachRun inner values).1
        = (match values.foldl (fun acc v => recordError acc (inner v)) none with
           | some e => Future.fresh.errorState e
           | none => Future.fresh.finishState)
    ∧ (serialForEachRun inner values).1.finished = true := by
  have htr : (serialForEachRun inner values).2 = (serialForEachGo inner 0 values none).2 := rfl
  have herr : (serialForEachRun inner values).1
      = (match (serialForEachGo inner 0 values none).1 with
         | some e => Future.fresh.errorState e
         | none => Future.fresh.finishState) := rfl
  refine ⟨?_, ?_, ?_, ?_⟩
  · intro hk
    rw [htr]
    have h := serialForEachGo_trace inner values 0 none k hk
    simpa using h
  · intro hk
    rw [htr]
    have h := serialForEachGo_trace inner values 0 none (k + 1) hk
    have h2 : 2 * (k + 1) = 2 * k + 2 := by omega
    rw [h2] at h
    simpa using h.1
  · rw [herr, serialForEachGo_err]
  · rw [herr]
    cases hcase : (serialForEachGo inner 0 values none).1 with
    | some e => exact (Future.errorState_spec Future.fresh e).2.1
    | none => exact (Future.finishState_spec Future.fresh).1

/-- Witness for claim C8: three elements [1, 2, 3] with an inner job that
errors on the even element; element 1 starts at position 2 — after element
0's finish at position 1 — and the final Future carries exactly the even
element's error. -/
theorem serialForEach_in_order_witness :
    (serialForEachRun (fun n : Int => if n = 2 then (⟨5, "even"⟩ : Error) else ⟨0, ""⟩)
        [1, 2, 3]).2[1]? = some (Ev.finish 0)
    ∧ (serialForEachRun (fun n : Int => if n = 2 then (⟨5, "even"⟩ : Error) else ⟨0, ""⟩)
        [1, 2, 3]).2[2]? = some (Ev.start 1)
    ∧ (serialForEachRun (fun n : Int => if n = 2 then (⟨5, "even"⟩ : Error) else ⟨0, ""⟩)
        [1, 2, 3]).1 = Future.fresh.errorState ⟨5, "even"⟩
    ∧ (serialForEachRun (fun n : Int => if n = 2 then (⟨5, "even"⟩ : Error) else ⟨0, ""⟩)
        [1, 2, 3]).1.finished = true := by
  have h := serialForEach_in_order_first_error
      (fun n : Int => if n = 2 then (⟨5, "even"⟩ : Error) else ⟨0, ""⟩) [1, 2, 3] 0
  have h0 := h.1 (by simp)
  refine ⟨by simpa using h0.2, by simpa using h.2.1 (by simp), ?_, h.2.2.2⟩
  rw [h.2.2.1]
  decide

/-- Claim C9 (spec-modelled): one unfolding of do_while(body).  After a run of
the body from state `s`: if its future carried an error `e`, the loop's outer
Future is finished with that error; if it yielded Continue, a fresh
do_while(body) iteration is constructed and run, and its completion is the
loop's result (the outer Future is driven by the recursive call); if it
yielded Break, the outer Future finishes cleanly with no error. -/
theorem doWhile_step {σ : Type} (body : σ → σ × BodyResult) (fuel : Nat) (s s1 : σ) :
    (∀ e : Error, body s = (s1, BodyResult.err e) →
      doWhileRun body (fuel + 1) s = some (s1, Future.fresh.errorState e))
    ∧ (body s = (s1, BodyResult.flow ControlFlow.Break) →
      doWhileRun body (fuel + 1) s = some (s1, Future.fresh.finishState))
    ∧ (body s = (s1, BodyResult.flow ControlFlow.Continue) →
      doWhileRun body (fuel + 1) s = doWhileRun body fuel s1) := by
  refine ⟨?_, ?_, ?_⟩
  · intro e h
    unfold doWhileRun
    rw [h]
  · intro h
    unfold doWhileRun
    rw [h]
  · intro h
    conv_lhs => unfold doWhileRun
    rw [h]

/-- Witness for claim C9 on concrete bodies: a counter body that continues
below 3 and then breaks (the loop finishes cleanly at counter 3, matching the
autotest's counting loop), and a body that errors at once. -/
theorem doWhile_step_witness :
    doWhileRun (fun n : Nat => (n + 1,
        if n + 1 < 3 then BodyResult.flow ControlFlow.Continue
        else BodyResult.flow ControlFlow.Break)) 1 2
      = some (3, Future.fresh.finishState)
    ∧ doWhileRun (fun n : Nat => (n + 1,
        if n + 1 < 3 then BodyResult.flow ControlFlow.Continue
        else BodyResult.flow ControlFlow.Break)) 2 1
      = doWhileRun (fun n : Nat => (n + 1,
        if n + 1 < 3 then BodyResult.flow ControlFlow.Continue
        else BodyResult.flow ControlFlow.Break)) 1 2
    ∧ doWhileRun (fun n : Nat => (n, BodyResult.err ⟨9, "boom"⟩)) 1 0
      = some (0, Future.fresh.errorState ⟨9, "boom"⟩) := by
  refine ⟨?_, ?_, ?_⟩
  · exact (doWhile_step (fun n : Nat => (n + 1,
        if n + 1 < 3 then BodyResult.flow ControlFlow.Continue
        else BodyResult.flow ControlFlow.Break)) 0 2 3).2.1 (by decide)
  · exact (doWhile_step (fun n : Nat => (n + 1,
        if n + 1 < 3 then BodyResult.flow ControlFlow.Continue
        else BodyResult.flow ControlFlow.Break)) 1 1 2).2.2 (by decide)
  · exact (doWhile_step (fun n : Nat => (n, BodyResult.err ⟨9, "boom"⟩)) 0 0 0).1
      ⟨9, "boom"⟩ (by decide)

end KAsync
